import Mathlib

/-!
Verification development for the `mailer` repository (src/mailer/main.py).

Python strings are modelled as `List Char`; Python dicts as association
lists in insertion order (lookup returns the first matching key, as dict
keys are unique in the program).  Python exceptions are modelled with
`Except`: an error value carries no partial result, exactly as an exception
propagating out of a dict comprehension discards it.
-/

set_option autoImplicit false

deriving instance DecidableEq for Except

namespace Mailer

/-- Python strings, modelled as lists of characters. -/
abbrev PyStr := List Char

/-- Python runtime values reaching the variable mapping: CSV cells are
strings and evaluated expressions produce (in the modelled fragment)
integers. -/
inductive PyVal where
  | str (s : PyStr)
  | int (n : Int)
  deriving DecidableEq

/-- The Python exception classes this program can raise in the modelled
fragment: `KeyError` (an undefined placeholder reference, carrying the
missing field name), `ValueError` (malformed brace syntax inside
`str.format_map`), `IndexError` (`expr[1]` on a one-element split in
`parse_template`). -/
inductive PyErr where
  | keyError (name : PyStr)
  | valueError
  | indexError
  deriving DecidableEq

/-- A Python dict mapping names to values, in insertion order. -/
abbrev VarMap := List (PyStr × PyVal)

/-- Dict lookup: the first entry with the given key (keys are unique for
every dict this program builds). -/
def lookupVar : VarMap → PyStr → Option PyVal
  | [], _ => none
  | (k, v) :: rest, n => if k = n then some v else lookupVar rest n

/-- `format(value, '')` as applied by `str.format_map` to a looked-up
value: strings pass through, integers print in decimal. -/
def formatPyVal : PyVal → PyStr
  | .str s => s
  | .int n => (toString n).toList

/-- A string containing no brace character at all (so certainly no
`\x7bidentifier\x7d` placeholder substring). -/
def braceFree (s : PyStr) : Prop := ∀ c ∈ s, c ≠ '{' ∧ c ≠ '}'

instance (s : PyStr) : Decidable (braceFree s) := by
  unfold braceFree; infer_instance

/-! ## `list_variables` (main.py lines 21-25)

```
regex = r'\{([^{}]*)\}'
return set(re.findall(regex, string))
```

`re.findall` scans left to right for non-overlapping matches of
`\{[^\x7b\x7d]*\}`: a `{`, then a run of non-brace characters, then a `}`.
If another `{` appears before a closing `}`, the engine can only start a
new match at that later `{`.  The scan is a two-state machine: outside any
candidate match, or inside one with the characters captured so far. -/

/-- The `re.findall` scan.  `state = none`: outside a match;
`state = some acc`: after a `{`, having captured `acc` so far. -/
def lvGo : List Char → Option PyStr → List PyStr
  | [], _ => []
  | c :: rest, none =>
      if c = '{' then lvGo rest (some []) else lvGo rest none
  | c :: rest, some acc =>
      if c = '}' then acc :: lvGo rest none
      else if c = '{' then lvGo rest (some [])
      else lvGo rest (some (acc ++ [c]))

/-- `list_variables`: all `\x7bvar\x7d` captures in the string.  Python
wraps the result in `set(...)`; the model keeps the list (possibly with
duplicates) and every use is membership, which coincides. -/
def list_variables (s : PyStr) : List PyStr := lvGo s none

/-! ## `str.format_map` (used by `replace_placeholders`, lines 27-31)

Model of CPython's format-string markup loop, for the fragment this
program exercises: literal text, `{{` and `}}` escapes, and simple named
replacement fields `\x7bname\x7d` looked up directly in the mapping.
A lone `}` , a `{` never closed, or a `{` inside a field name raise
`ValueError`; a field name absent from the mapping raises `KeyError`.
Auto-numbering fields (`{}` , `{0}`), attribute/index access and
conversion/format specs are not modelled; every theorem below only
involves named bare-word fields, where CPython's behaviour is exactly
this direct lookup. -/

/-- The scanner state of the markup loop: literal text, inside a
replacement field with the name read so far, or just after a lone `}`
(which must be followed by another `}` to be a legal escape). -/
inductive FmState where
  | top
  | field (acc : PyStr)
  | rbrace

/-- The markup scan, one character at a time.  A `{` opens a field; a
second `{` with nothing read yet is the `{{` escape; a `}` closes the
field and performs the lookup.  A lone top-level `}` is legal only as the
`}}` escape. -/
def fmGo (m : VarMap) : List Char → FmState → Except PyErr PyStr
  | [], .top => .ok []
  | [], .field _ => .error .valueError
  | [], .rbrace => .error .valueError
  | c :: rest, .top =>
      if c = '{' then fmGo m rest (.field [])
      else if c = '}' then fmGo m rest .rbrace
      else (fmGo m rest .top).map (fun t => c :: t)
  | c :: rest, .field acc =>
      if c = '}' then
        match lookupVar m acc with
        | none => .error (.keyError acc)
        | some v => (fmGo m rest .top).map (fun t => formatPyVal v ++ t)
      else if c = '{' then
        if acc = [] then (fmGo m rest .top).map (fun t => '{' :: t)
        else .error .valueError
      else fmGo m rest (.field (acc ++ [c]))
  | c :: rest, .rbrace =>
      if c = '}' then (fmGo m rest .top).map (fun t => '}' :: t)
      else .error .valueError

/-- `string.format_map(variables)`. -/
def format_map (s : PyStr) (m : VarMap) : Except PyErr PyStr := fmGo m s .top

/-- `replace_placeholders` (main.py lines 27-31): a single call to
`string.format_map(variables)`. -/
def replace_placeholders (s : PyStr) (vmap : VarMap) : Except PyErr PyStr :=
  format_map s vmap

/-- `fill_variables` (main.py lines 33-40):
```
used_vars = list_variables(string)
vars = {key: value for key, value in variables.items() if key in used_vars}
return replace_placeholders(string, vars)
```
-/
def fill_variables (s : PyStr) (vmap : VarMap) : Except PyErr PyStr :=
  let used_vars := list_variables s
  let vars := vmap.filter (fun kv => decide (kv.1 ∈ used_vars))
  replace_placeholders s vars

/-! ## `fill_placeholders` (main.py lines 42-48)

```
expr = {k: eval((fill_variables(v, variables))) for k, v in expressions.items()}
variables.update(expr)
return {key: fill_variables(value, variables) for key, value in email_parts.items()}
```

`eval` is the host-language expression evaluator; the functions below are
parametrised by an arbitrary total evaluator `evalFn` (expression-evaluation
failures are a separate error class, spec section 7, and are outside the
claims settled here).  A concrete evaluator for the integer-arithmetic
fragment is defined further down as `pyEvalArith`. -/

/-- The first dict comprehension: evaluate every expression, in table
order, against the recipient's variables.  The first exception aborts the
whole comprehension. -/
def evalExpressions (evalFn : PyStr → PyVal) (vmap : VarMap) :
    List (PyStr × PyStr) → Except PyErr VarMap
  | [] => .ok []
  | (k, v) :: rest =>
      match fill_variables v vmap with
      | .error e => .error e
      | .ok s =>
          match evalExpressions evalFn vmap rest with
          | .error e => .error e
          | .ok out => .ok ((k, evalFn s) :: out)

/-- `dict.update`: existing keys are overwritten in place (keeping their
position), new keys are appended in the new entries' order. -/
def dictUpdate (m newEntries : VarMap) : VarMap :=
  m.map (fun kv =>
      match lookupVar newEntries kv.1 with
      | some v => (kv.1, v)
      | none => kv)
    ++ newEntries.filter (fun kv => (lookupVar m kv.1).isNone)

/-- The state of the `variables` argument after `variables.update(expr)`:
`fill_placeholders` mutates its caller's recipient dict in place, and this
definition is that post-state (an error means the update line was never
reached because an expression raised first). -/
def variablesAfterUpdate (evalFn : PyStr → PyVal) (vmap : VarMap)
    (expressions : List (PyStr × PyStr)) : Except PyErr VarMap :=
  (evalExpressions evalFn vmap expressions).map (dictUpdate vmap)

/-- The second dict comprehension: fill every email part, in order,
against the merged mapping. -/
def fillSections (vmap : VarMap) :
    List (PyStr × PyStr) → Except PyErr (List (PyStr × PyStr))
  | [] => .ok []
  | (k, v) :: rest =>
      match fill_variables v vmap with
      | .error e => .error e
      | .ok s =>
          match fillSections vmap rest with
          | .error e => .error e
          | .ok out => .ok ((k, s) :: out)

/-- `fill_placeholders` (main.py lines 42-48). -/
def fill_placeholders (evalFn : PyStr → PyVal) (email_parts : List (PyStr × PyStr))
    (vmap : VarMap) (expressions : List (PyStr × PyStr)) :
    Except PyErr (List (PyStr × PyStr)) :=
  match evalExpressions evalFn vmap expressions with
  | .error e => .error e
  | .ok exprVals => fillSections (dictUpdate vmap exprVals) email_parts

/-! ## A concrete evaluator for the arithmetic fragment

`eval` in CPython evaluates arbitrary Python expressions.  The template
expressions this program's claims exercise are integer arithmetic
(`"3 * 2"`), so the concrete evaluator models exactly that fragment:
integer literals combined with left-associative `+`, `-` and
higher-precedence `*`, with spaces allowed.  It is used to instantiate
the `evalFn` parameter on concrete inputs; universal theorems hold for
every evaluator. -/

inductive Tok where
  | num (n : Int)
  | plus
  | minus
  | star
  deriving DecidableEq

/-- Tokeniser: digit runs become integer literals; `+ - *` are operators;
spaces separate; anything else is a tokenisation failure.
`acc`: digits of the literal currently being read, if any. -/
def tkGo : List Char → Option Nat → Option (List Tok)
  | [], none => some []
  | [], some n => some [.num (Int.ofNat n)]
  | c :: rest, none =>
      if c.isDigit then tkGo rest (some (c.toNat - '0'.toNat))
      else if c = ' ' then tkGo rest none
      else if c = '+' then (tkGo rest none).map (.plus :: ·)
      else if c = '-' then (tkGo rest none).map (.minus :: ·)
      else if c = '*' then (tkGo rest none).map (.star :: ·)
      else none
  | c :: rest, some n =>
      if c.isDigit then tkGo rest (some (n * 10 + (c.toNat - '0'.toNat)))
      else if c = ' ' then (tkGo rest none).map (.num (Int.ofNat n) :: ·)
      else if c = '+' then (tkGo rest none).map (fun ts => .num (Int.ofNat n) :: .plus :: ts)
      else if c = '-' then (tkGo rest none).map (fun ts => .num (Int.ofNat n) :: .minus :: ts)
      else if c = '*' then (tkGo rest none).map (fun ts => .num (Int.ofNat n) :: .star :: ts)
      else none

/-- A product segment: `num (* num)*`. -/
def evalProducts : List Tok → Option Int
  | [.num n] => some n
  | .num n :: .star :: rest => (evalProducts rest).map (fun p => n * p)
  | _ => none

/-- Left-associative sum of product segments.  `acc` is the value so far,
`sub` says whether the segment being gathered is subtracted, `seg` is that
segment's tokens. -/
def evalSumGo : Int → Bool → List Tok → List Tok → Option Int
  | acc, sub, [], seg =>
      (evalProducts seg).map (fun p => if sub then acc - p else acc + p)
  | acc, sub, .plus :: rest, seg => do
      let p ← evalProducts seg
      evalSumGo (if sub then acc - p else acc + p) false rest []
  | acc, sub, .minus :: rest, seg => do
      let p ← evalProducts seg
      evalSumGo (if sub then acc - p else acc + p) true rest []
  | acc, sub, t :: rest, seg => evalSumGo acc sub rest (seg ++ [t])

/-- The arithmetic-fragment model of Python `eval`.  Applied only to
well-formed arithmetic in every theorem below; on other inputs it returns
the input unchanged as a string (real `eval` would raise, an error class
outside these claims). -/
def pyEvalArith (s : PyStr) : PyVal :=
  match tkGo s none with
  | some toks =>
      match evalSumGo 0 false toks [] with
      | some n => .int n
      | none => .str s
  | none => .str s


/-! ## Well-formed template strings

The template format documents placeholders as `\x7bidentifier\x7d` with
bare-word identifiers (spec section 6).  A string is well formed when its
braces occur only as such placeholders: any other text is non-brace
characters.  An identifier starts with a letter or underscore and
continues with letters, digits or underscores — exactly the field names
on which the `format_map` model matches CPython. -/

def isIdentChar (c : Char) : Bool := c.isAlphanum || c = '_'

def isIdentStart (c : Char) : Bool := c.isAlpha || c = '_'

/-- Well-formedness scan.  `none`: literal text; `some true`: just after
a `{` (an identifier-start character is required); `some false`: inside
an identifier. -/
def wfGo : List Char → Option Bool → Bool
  | [], none => true
  | [], some _ => false
  | c :: rest, none =>
      if c = '{' then wfGo rest (some true)
      else if c = '}' then false
      else wfGo rest none
  | c :: rest, some true =>
      if isIdentStart c then wfGo rest (some false) else false
  | c :: rest, some false =>
      if c = '}' then wfGo rest none
      else if isIdentChar c then wfGo rest (some false)
      else false

/-- A template string whose braces all form simple bare-word
`\x7bidentifier\x7d` placeholders. -/
def wfTemplate (s : PyStr) : Bool := wfGo s none


/-! ## `build_mail` and `html_body` (main.py lines 50-81)

`EmailMessage` assembly (MIME headers, transfer encoding, attachment
encoding) is an external collaborator; the model keeps exactly the data
the program computes and hands to it: the non-Body headers, the
plain-text body string passed to `set_content`, the HTML alternative
string, and the attachment bytes and name. -/

/-- String-valued dict lookup (the parsed template sections). -/
def lookupStr : List (PyStr × PyStr) → PyStr → Option PyStr
  | [], _ => none
  | (k, v) :: rest, n => if k = n then some v else lookupStr rest n

def bodyKey : PyStr := "Body".toList

/-- `body.replace('\n', '\n\n')`: `str.replace` with a single-character
pattern maps each `'\n'` to two. -/
def doubleNL : List Char → List Char
  | [] => []
  | c :: rest => if c = '\n' then '\n' :: '\n' :: doubleNL rest else c :: doubleNL rest

/-- `s.replace('\n\n', '\n')`: the left-to-right non-overlapping
replacement of each `"\n\n"` by `"\n"`, as a one-character scan.
`pending = true` records a `'\n'` waiting for a partner. -/
def halveGo : List Char → Bool → List Char
  | [], false => []
  | [], true => ['\n']
  | c :: rest, false =>
      if c = '\n' then halveGo rest true else c :: halveGo rest false
  | c :: rest, true =>
      if c = '\n' then '\n' :: halveGo rest false
      else '\n' :: c :: halveGo rest false

/-- `s.replace('\n\n', '\n')` — halving the line breaks back. -/
def halveNL (s : List Char) : List Char := halveGo s false

/-- `body.replace('\n', '<br>' * 2)`. -/
def brNL : List Char → List Char
  | [] => []
  | c :: rest =>
      if c = '\n' then ("<br><br>".toList) ++ brNL rest else c :: brNL rest

/-- The f-string text of `html_body` before the interpolated body. -/
def htmlPre : List Char :=
  ("        <html>\n            <head></head>\n            <body>\n                <p style=\"font-family: Arial, sans-serif; font-size: 15px;\">\n                    ").toList

/-- The f-string text between the interpolated body and the signature. -/
def htmlMid : List Char :=
  ("\n                </p>\n            </body>\n            <footer>").toList

/-- The f-string text after the interpolated signature. -/
def htmlPost : List Char :=
  ("</footer>\n        </html>\n        ").toList

/-- `html_body` (main.py lines 67-81): the f-string with the
`<br>`-doubled body and the raw signature interpolated verbatim. -/
def html_body (body signature : PyStr) : PyStr :=
  htmlPre ++ brNL body ++ htmlMid ++ signature ++ htmlPost

/-- The data `build_mail` computes and hands to the message object. -/
structure BuiltMessage where
  headers : List (PyStr × PyStr)
  plainBody : PyStr
  htmlBody : PyStr
  pdf : List UInt8
  pdfName : PyStr
  deriving DecidableEq

/-- `build_mail` (main.py lines 50-65): every non-Body section becomes a
header verbatim; the plain-text content is the Body with each line break
doubled; the HTML alternative is `html_body`; the attachment carries the
given bytes and file name.  (`raw_template['Body']` presupposes the Body
key, which `parse_template` always provides; the lookup default is never
reached from this program.) -/
def build_mail (pdf : List UInt8) (pdf_name : PyStr) (signature : PyStr)
    (raw_template : List (PyStr × PyStr)) : BuiltMessage :=
  let body := (lookupStr raw_template bodyKey).getD []
  { headers := raw_template.filter (fun kv => decide (kv.1 ≠ bodyKey))
    plainBody := doubleNL body
    htmlBody := html_body body signature
    pdf := pdf
    pdfName := pdf_name }

/-! ## `parse_template` (main.py lines 89-129) -/

/-- Python `str.strip()` whitespace (the ASCII part; templates here are
ASCII text). -/
def isPySpace (c : Char) : Bool :=
  c = ' ' || c = '\t' || c = '\n' || c = '\r' || c = '\x0b' || c = '\x0c'

/-- `line.strip()`. -/
def pyStrip (s : List Char) : List Char :=
  ((s.dropWhile isPySpace).reverse.dropWhile isPySpace).reverse

/-- `str.split(';')`: full split on every semicolon; always at least one
part. -/
def splitSemi : List Char → List (List Char)
  | [] => [[]]
  | c :: rest =>
      if c = ';' then [] :: splitSemi rest
      else
        match splitSemi rest with
        | s :: ss => (c :: s) :: ss
        | [] => [[c]]

/-- Python dict assignment `d[k] = v`: overwrite the first existing
entry in place, else append. -/
def setKey : List (PyStr × PyStr) → PyStr → PyStr → List (PyStr × PyStr)
  | [], k, v => [(k, v)]
  | (k0, v0) :: rest, k, v =>
      if k0 = k then (k0, v) :: rest else (k0, v0) :: setKey rest k v

def fromKey : PyStr := "From".toList
def toKey : PyStr := "To".toList
def ccKey : PyStr := "Cc".toList
def subjectKey : PyStr := "Subject".toList

/-- The initial `email_parts` dict. -/
def initParts : List (PyStr × PyStr) :=
  [(fromKey, []), (toKey, []), (ccKey, []), (subjectKey, []), (bodyKey, [])]

/-- The loop state of `parse_template`: the sections dict, the active
section name, the expressions dict. -/
structure PTState where
  parts : List (PyStr × PyStr)
  current : Option PyStr
  exprs : List (PyStr × PyStr)
  deriving DecidableEq

/-- The `elif` chain of the `parse_template` line loop, applied to the
already-stripped line, in source order; an `<Expressions>` line lacking a
`;` raises `IndexError` at `expr[1]`. -/
def processStripped (st : PTState) (line : List Char) : Except PyErr PTState :=
  if ("#".toList).isPrefixOf line then .ok st
  else if ("<Expressions>".toList).isPrefixOf line then
    match splitSemi (line.drop 13) with
    | p0 :: p1 :: _ =>
        .ok { st with exprs := setKey st.exprs (pyStrip p0) (pyStrip p1) }
    | _ => .error .indexError
  else if ("<From>".toList).isPrefixOf line then
    .ok { st with parts := setKey st.parts fromKey (pyStrip (line.drop 6)),
                  current := some fromKey }
  else if ("<To>".toList).isPrefixOf line then
    .ok { st with parts := setKey st.parts toKey (pyStrip (line.drop 4)),
                  current := some toKey }
  else if ("<Cc>".toList).isPrefixOf line then
    .ok { st with parts := setKey st.parts ccKey (pyStrip (line.drop 4)),
                  current := some ccKey }
  else if ("<Subject>".toList).isPrefixOf line then
    .ok { st with parts := setKey st.parts subjectKey (pyStrip (line.drop 9)),
                  current := some subjectKey }
  else if ("<Body>".toList).isPrefixOf line then
    .ok { st with current := some bodyKey }
  else if st.current = some bodyKey then
    .ok { st with parts := setKey st.parts bodyKey
                    ((lookupStr st.parts bodyKey).getD [] ++ line ++ ['\n']) }
  else .ok st

/-- One iteration of the `parse_template` line loop: `line = line.strip()`
then the `elif` chain. -/
def processLine (st : PTState) (raw : List Char) : Except PyErr PTState :=
  processStripped st (pyStrip raw)

/-- The `for line in file` loop. -/
def parseLines (st : PTState) : List (List Char) → Except PyErr PTState
  | [] => .ok st
  | l :: rest =>
      match processLine st l with
      | .error e => .error e
      | .ok st2 => parseLines st2 rest

/-- `parse_template`, over the file's lines: returns the sections dict
and the expressions dict. -/
def parse_template (lines : List (List Char)) :
    Except PyErr ((List (PyStr × PyStr)) × List (PyStr × PyStr)) :=
  (parseLines ⟨initParts, none, []⟩ lines).map (fun st => (st.parts, st.exprs))

/-! ## The dispatch loop (main.py lines 164-187)

The transport is an external collaborator; a message's interaction with
it is its observable outcome on the first attempt and (if the first
attempt raises the sender-refused class) on the retry.  The loop is
modelled as a recursion producing the trace of transport actions, the
final sent count, and whether an exception escaped the loop.

Source behaviour captured:
* success: report the incremented count, sleep, continue;
* `SMTPSenderRefused`: `connect`, `login`, send the same message again —
  the retry is not guarded, so a second failure propagates out of the
  loop;
* any other exception: the second handler is `except e:` with `e`
  unbound, so evaluating it raises `NameError` while the original
  exception is being handled — the intended "print and return" branch is
  dead code, and the exception escapes the loop.  Either way the loop
  halts with the error surfaced and nothing further is sent. -/

/-- Outcome of one `smtp.send_message` call. -/
inductive Outcome where
  | success
  | senderRefused
  | otherError
  deriving DecidableEq

/-- A built message, abstracted to its send outcomes: the first attempt's
and, should the first raise `SMTPSenderRefused`, the retry's. -/
structure MsgBehavior where
  first : Outcome
  retry : Outcome
  deriving DecidableEq

/-- Observable transport-loop actions. -/
inductive Ev where
  | attempt (idx : Nat)
  | reconnect
  | relogin
  | report (count : Nat)
  | pause
  deriving DecidableEq

structure DispatchResult where
  events : List Ev
  sentCount : Nat
  crashed : Bool
  deriving DecidableEq

/-- The `for msg in emails` loop.  `idx` numbers the remaining messages,
`sent` is the count so far (`i - 1` in the source). -/
def dispatchLoop : List MsgBehavior → Nat → Nat → DispatchResult
  | [], _, sent => { events := [], sentCount := sent, crashed := false }
  | m :: rest, idx, sent =>
    match m.first with
    | .success =>
        let r := dispatchLoop rest (idx + 1) (sent + 1)
        { r with events := .attempt idx :: .report (sent + 1) :: .pause :: r.events }
    | .senderRefused =>
        match m.retry with
        | .success =>
            let r := dispatchLoop rest (idx + 1) (sent + 1)
            { r with events := .attempt idx :: .reconnect :: .relogin :: .attempt idx ::
                .report (sent + 1) :: .pause :: r.events }
        | _ =>
            { events := [.attempt idx, .reconnect, .relogin, .attempt idx],
              sentCount := sent, crashed := true }
    | .otherError =>
        { events := [.attempt idx], sentCount := sent, crashed := true }

/-- The dispatch of a full run. -/
def dispatch (msgs : List MsgBehavior) : DispatchResult := dispatchLoop msgs 0 0

/-! ## The pacing interval (main.py lines 170-173)

```
sleep_time = random.uniform(mean - variance, mean + variance)
```

`random.uniform(a, b)` returns `a + (b - a) * u` for a unit sample
`u ∈ [0, 1]`. -/

/-- `random.uniform(a, b)` at unit sample `u`. -/
def randomUniform (a b u : ℚ) : ℚ := a + (b - a) * u

/-- The sampled inter-send sleep duration. -/
def sleep_time (mean variance u : ℚ) : ℚ :=
  randomUniform (mean - variance) (mean + variance) u

/-! ## Lemmas: characters and braces -/

theorem identChar_ne_lbrace {c : Char} (h : isIdentChar c = true) : c ≠ '{' := by
  rintro rfl; revert h; decide

theorem identChar_ne_rbrace {c : Char} (h : isIdentChar c = true) : c ≠ '}' := by
  rintro rfl; revert h; decide

theorem identStart_identChar {c : Char} (h : isIdentStart c = true) :
    isIdentChar c = true := by
  simp only [isIdentStart, Bool.or_eq_true] at h
  rcases h with h | h <;> simp [isIdentChar, Char.isAlphanum, h]

theorem braceFree_nil : braceFree [] := by intro c hc; cases hc

theorem braceFree_cons {c : Char} {s : PyStr} (h1 : c ≠ '{') (h2 : c ≠ '}')
    (h : braceFree s) : braceFree (c :: s) := by
  intro d hd
  rcases List.mem_cons.mp hd with rfl | hd
  · exact ⟨h1, h2⟩
  · exact h d hd

theorem braceFree_append {x y : PyStr} (hx : braceFree x) (hy : braceFree y) :
    braceFree (x ++ y) := by
  intro c hc
  rcases List.mem_append.mp hc with hc | hc
  · exact hx c hc
  · exact hy c hc

/-- A brace-free string has no placeholder captures at all. -/
theorem list_variables_eq_nil_of_braceFree :
    ∀ s : PyStr, braceFree s → list_variables s = [] := by
  intro s
  induction s with
  | nil => intro _; rfl
  | cons c rest ih =>
      intro h
      have hc := h c (List.mem_cons_self _ _)
      have hrest : braceFree rest := fun d hd => h d (List.mem_cons_of_mem _ hd)
      show lvGo (c :: rest) none = []
      rw [lvGo, if_neg hc.1]
      exact ih hrest

/-! ## Lemmas: dict lookup, filter, update -/

/-- Every value of the mapping formats to a brace-free string. -/
def mapValsBraceFree (m : VarMap) : Prop := ∀ kv ∈ m, braceFree (formatPyVal kv.2)

instance (m : VarMap) : Decidable (mapValsBraceFree m) := by
  unfold mapValsBraceFree; infer_instance

theorem lookupVar_mem {m : VarMap} {n : PyStr} {v : PyVal}
    (h : lookupVar m n = some v) : (n, v) ∈ m := by
  induction m with
  | nil => cases h
  | cons kv rest ih =>
      obtain ⟨k0, v0⟩ := kv
      by_cases hk : k0 = n
      · subst hk
        simp only [lookupVar, if_pos rfl] at h
        cases h
        exact List.mem_cons_self _ _
      · simp only [lookupVar, if_neg hk] at h
        exact List.mem_cons_of_mem _ (ih h)

theorem lookupVar_eq_none_iff {m : VarMap} {n : PyStr} :
    lookupVar m n = none ↔ n ∉ m.map Prod.fst := by
  induction m with
  | nil =>
      constructor
      · intro _ hmem; cases hmem
      · intro _; rfl
  | cons kv rest ih =>
      obtain ⟨k0, v0⟩ := kv
      rw [List.map_cons]
      by_cases hk : k0 = n
      · subst hk
        rw [lookupVar, if_pos rfl]
        constructor
        · intro h; cases h
        · intro h; exact absurd (List.mem_cons_self _ _) h
      · rw [lookupVar, if_neg hk, ih]
        constructor
        · intro h hmem
          rcases List.mem_cons.mp hmem with rfl | hmem
          · exact hk rfl
          · exact h hmem
        · intro h hmem
          exact h (List.mem_cons_of_mem _ hmem)

theorem lookupVar_isSome_iff {m : VarMap} {n : PyStr} :
    (lookupVar m n).isSome = true ↔ n ∈ m.map Prod.fst := by
  rcases h : lookupVar m n with _ | v
  · have hn := lookupVar_eq_none_iff.mp h
    simp only [Option.isSome_none]
    constructor
    · intro hfalse; exact absurd hfalse (by decide)
    · intro hmem; exact absurd hmem hn
  · simp only [Option.isSome_some, true_iff]
    exact List.mem_map.mpr ⟨(n, v), lookupVar_mem h, rfl⟩

/-- Lookup through a key-predicate filter. -/
theorem lookupVar_filter (m : VarMap) (q : PyStr → Bool) (n : PyStr) :
    lookupVar (m.filter (fun kv => q kv.1)) n =
      if q n then lookupVar m n else none := by
  induction m with
  | nil => simp [lookupVar]
  | cons kv rest ih =>
      obtain ⟨k0, v0⟩ := kv
      by_cases hq : q k0
      · rw [List.filter_cons_of_pos (by simpa using hq)]
        by_cases hk : k0 = n
        · subst hk; simp [lookupVar, hq]
        · simp [lookupVar, hk, ih]
      · rw [List.filter_cons_of_neg (by simpa using hq)]
        by_cases hk : k0 = n
        · subst hk; simp [lookupVar, hq, ih]
        · simp [lookupVar, hk, ih]

theorem lookupVar_append (a b : VarMap) (n : PyStr) :
    lookupVar (a ++ b) n =
      match lookupVar a n with
      | some v => some v
      | none => lookupVar b n := by
  induction a with
  | nil => simp [lookupVar]
  | cons kv rest ih =>
      obtain ⟨k0, v0⟩ := kv
      by_cases hk : k0 = n
      · subst hk; simp [lookupVar]
      · simp [lookupVar, hk, ih]

/-- Lookup in the overwrite part of `dictUpdate`. -/
theorem lookupVar_map_override (m e : VarMap) (n : PyStr) :
    lookupVar (m.map (fun kv =>
        match lookupVar e kv.1 with
        | some v => (kv.1, v)
        | none => kv)) n =
      match lookupVar m n with
      | some v => some ((lookupVar e n).getD v)
      | none => none := by
  induction m with
  | nil => simp [lookupVar]
  | cons kv rest ih =>
      obtain ⟨k0, v0⟩ := kv
      by_cases hk : k0 = n
      · subst hk
        rcases he : lookupVar e k0 with _ | w <;>
          simp [lookupVar, he, List.map_cons]
      · rcases he : lookupVar e k0 with _ | w <;>
          simp [lookupVar, hk, ih, List.map_cons, he]

/-- `dict.update` lookup: new entries win, otherwise the old value. -/
theorem dictUpdate_lookup (m e : VarMap) (n : PyStr) :
    lookupVar (dictUpdate m e) n =
      match lookupVar e n with
      | some v => some v
      | none => lookupVar m n := by
  unfold dictUpdate
  rw [lookupVar_append, lookupVar_map_override]
  have hf := lookupVar_filter e (fun k => (lookupVar m k).isNone) n
  rcases hm : lookupVar m n with _ | v
  · rcases he : lookupVar e n with _ | w <;>
      simp_all [Option.isNone]
  · rcases he : lookupVar e n with _ | w <;> simp_all

/-! ## Lemmas: `format_map` on well-formed template strings

Joint induction over the string, relating the three scans `wfGo` (well-
formedness), `lvGo` (referenced names) and `fmGo` (the markup loop): on a
well-formed string, if every referenced name is present the scan succeeds
(with a brace-free result when the mapping's values are brace-free), and
if some referenced name is absent it raises `KeyError` — never
`ValueError`. -/

theorem fmGo_wf_ok (m : VarMap) :
    ∀ s : List Char,
      ((wfGo s none = true →
          (∀ n ∈ lvGo s none, (lookupVar m n).isSome = true) →
          ∃ out, fmGo m s .top = .ok out ∧ (mapValsBraceFree m → braceFree out)) ∧
        (∀ acc, wfGo s (some false) = true →
          (∀ n ∈ lvGo s (some acc), (lookupVar m n).isSome = true) →
          ∃ out, fmGo m s (.field acc) = .ok out ∧ (mapValsBraceFree m → braceFree out)) ∧
        (wfGo s (some true) = true →
          (∀ n ∈ lvGo s (some []), (lookupVar m n).isSome = true) →
          ∃ out, fmGo m s (.field []) = .ok out ∧ (mapValsBraceFree m → braceFree out))) := by
  intro s
  induction s with
  | nil =>
      refine ⟨?_, ?_, ?_⟩
      · intro _ _
        exact ⟨[], rfl, fun _ => braceFree_nil⟩
      · intro acc hwf
        exact Bool.noConfusion hwf
      · intro hwf
        exact Bool.noConfusion hwf
  | cons c rest ih =>
      obtain ⟨ih1, ih2, ih3⟩ := ih
      refine ⟨?_, ?_, ?_⟩
      · intro hwf hsup
        by_cases hc1 : c = '{'
        · subst hc1
          simp only [wfGo, if_pos rfl] at hwf
          simp only [lvGo, if_pos rfl] at hsup
          simp only [fmGo, if_pos rfl]
          exact ih3 hwf hsup
        · by_cases hc2 : c = '}'
          · subst hc2
            simp only [wfGo, if_neg (by decide : ¬('}' = '{')), if_pos rfl] at hwf
            exact Bool.noConfusion hwf
          · simp only [wfGo, hc1, hc2, if_false, ite_false, if_neg] at hwf
            simp only [lvGo, hc1, if_false, ite_false, if_neg] at hsup
            simp only [fmGo, hc1, hc2, if_false, ite_false, if_neg]
            obtain ⟨out, hout, hbf⟩ := ih1 hwf hsup
            exact ⟨c :: out, by rw [hout]; rfl,
              fun hv => braceFree_cons hc1 hc2 (hbf hv)⟩
      · intro acc hwf hsup
        by_cases hc2 : c = '}'
        · subst hc2
          simp only [wfGo, if_pos rfl] at hwf
          simp only [lvGo, if_pos rfl] at hsup
          have hacc : (lookupVar m acc).isSome = true :=
            hsup acc (List.mem_cons_self _ _)
          rcases hl : lookupVar m acc with _ | v
          · rw [hl] at hacc; exact Bool.noConfusion hacc
          · have hsup' : ∀ n ∈ lvGo rest none, (lookupVar m n).isSome = true :=
              fun n hn => hsup n (List.mem_cons_of_mem _ hn)
            obtain ⟨out, hout, hbf⟩ := ih1 hwf hsup'
            refine ⟨formatPyVal v ++ out, ?_, ?_⟩
            · simp only [fmGo, if_pos rfl, hl, hout]; rfl
            · intro hv
              exact braceFree_append (hv (acc, v) (lookupVar_mem hl)) (hbf hv)
        · by_cases hid : isIdentChar c = true
          · have hc1 := identChar_ne_lbrace hid
            simp only [wfGo, hc2, if_false, ite_false, if_neg, hid, if_pos, ite_true] at hwf
            simp only [lvGo, hc2, hc1, if_false, ite_false, if_neg] at hsup
            simp only [fmGo, hc2, hc1, if_false, ite_false, if_neg]
            exact ih2 (acc ++ [c]) hwf hsup
          · simp only [wfGo, hc2, if_false, ite_false, if_neg, hid] at hwf
            exact Bool.noConfusion hwf
      · intro hwf hsup
        by_cases hst : isIdentStart c = true
        · have hid := identStart_identChar hst
          have hc1 := identChar_ne_lbrace hid
          have hc2 := identChar_ne_rbrace hid
          simp only [wfGo, hst, if_pos, ite_true] at hwf
          simp only [lvGo, hc2, hc1, if_false, ite_false, if_neg] at hsup
          simp only [fmGo, hc2, hc1, if_false, ite_false, if_neg]
          exact ih2 ([] ++ [c]) hwf hsup
        · simp only [wfGo, hst, if_false, ite_false, if_neg] at hwf
          exact Bool.noConfusion hwf

theorem fmGo_wf_missing (m : VarMap) :
    ∀ s : List Char,
      ((wfGo s none = true →
          (∃ n ∈ lvGo s none, lookupVar m n = none) →
          ∃ n, n ∈ lvGo s none ∧ lookupVar m n = none ∧
            fmGo m s .top = .error (.keyError n)) ∧
        (∀ acc, wfGo s (some false) = true →
          (∃ n ∈ lvGo s (some acc), lookupVar m n = none) →
          ∃ n, n ∈ lvGo s (some acc) ∧ lookupVar m n = none ∧
            fmGo m s (.field acc) = .error (.keyError n)) ∧
        (wfGo s (some true) = true →
          (∃ n ∈ lvGo s (some []), lookupVar m n = none) →
          ∃ n, n ∈ lvGo s (some []) ∧ lookupVar m n = none ∧
            fmGo m s (.field []) = .error (.keyError n))) := by
  intro s
  induction s with
  | nil =>
      refine ⟨?_, ?_, ?_⟩
      · rintro _ ⟨n, hn, _⟩
        cases hn
      · intro acc hwf
        exact Bool.noConfusion hwf
      · intro hwf
        exact Bool.noConfusion hwf
  | cons c rest ih =>
      obtain ⟨ih1, ih2, ih3⟩ := ih
      refine ⟨?_, ?_, ?_⟩
      · intro hwf hmiss
        by_cases hc1 : c = '{'
        · subst hc1
          simp only [wfGo, if_pos rfl] at hwf
          simp only [lvGo, if_pos rfl] at hmiss ⊢
          simp only [fmGo, if_pos rfl]
          exact ih3 hwf hmiss
        · by_cases hc2 : c = '}'
          · subst hc2
            simp only [wfGo, if_neg (by decide : ¬('}' = '{')), if_pos rfl] at hwf
            exact Bool.noConfusion hwf
          · simp only [wfGo, hc1, hc2, if_false, ite_false, if_neg] at hwf
            simp only [lvGo, hc1, if_false, ite_false, if_neg] at hmiss ⊢
            simp only [fmGo, hc1, hc2, if_false, ite_false, if_neg]
            obtain ⟨n, hn, hnone, herr⟩ := ih1 hwf hmiss
            exact ⟨n, hn, hnone, by rw [herr]; rfl⟩
      · intro acc hwf hmiss
        by_cases hc2 : c = '}'
        · subst hc2
          simp only [wfGo, if_pos rfl] at hwf
          simp only [lvGo, if_pos rfl] at hmiss ⊢
          rcases hl : lookupVar m acc with _ | v
          · exact ⟨acc, List.mem_cons_self _ _, hl, by simp [fmGo, hl]⟩
          · obtain ⟨n, hn, hnone⟩ := hmiss
            rcases List.mem_cons.mp hn with rfl | hn
            · rw [hl] at hnone; cases hnone
            · obtain ⟨n', hn', hnone', herr⟩ := ih1 hwf ⟨n, hn, hnone⟩
              refine ⟨n', List.mem_cons_of_mem _ hn', hnone', ?_⟩
              simp [fmGo, hl, herr, Except.map]
        · by_cases hid : isIdentChar c = true
          · have hc1 := identChar_ne_lbrace hid
            simp only [wfGo, hc2, if_false, ite_false, if_neg, hid, if_pos, ite_true] at hwf
            simp only [lvGo, hc2, hc1, if_false, ite_false, if_neg] at hmiss ⊢
            simp only [fmGo, hc2, hc1, if_false, ite_false, if_neg]
            exact ih2 (acc ++ [c]) hwf hmiss
          · simp only [wfGo, hc2, if_false, ite_false, if_neg, hid] at hwf
            exact Bool.noConfusion hwf
      · intro hwf hmiss
        by_cases hst : isIdentStart c = true
        · have hid := identStart_identChar hst
          have hc1 := identChar_ne_lbrace hid
          have hc2 := identChar_ne_rbrace hid
          simp only [wfGo, hst, if_pos, ite_true] at hwf
          simp only [lvGo, hc2, hc1, if_false, ite_false, if_neg] at hmiss ⊢
          simp only [fmGo, hc2, hc1, if_false, ite_false, if_neg]
          exact ih2 ([] ++ [c]) hwf hmiss
        · simp only [wfGo, hst, if_false, ite_false, if_neg] at hwf
          exact Bool.noConfusion hwf

theorem dictUpdate_braceFree {m e : VarMap}
    (hm : mapValsBraceFree m) (he : mapValsBraceFree e) :
    mapValsBraceFree (dictUpdate m e) := by
  intro kv hkv
  rcases List.mem_append.mp hkv with hkv | hkv
  · rcases List.mem_map.mp hkv with ⟨kv0, hkv0, hmap⟩
    rcases hl : lookupVar e kv0.1 with _ | w
    · rw [hl] at hmap; subst hmap; exact hm kv0 hkv0
    · rw [hl] at hmap
      have hw : (kv0.1, w) ∈ e := lookupVar_mem hl
      subst hmap
      exact he (kv0.1, w) hw
  · exact he kv (List.mem_filter.mp hkv).1

/-! ## Lemmas: `fill_variables` on well-formed strings -/

theorem fill_variables_ok {s : PyStr} {m : VarMap} (hwf : wfTemplate s = true)
    (hsup : ∀ n ∈ list_variables s, (lookupVar m n).isSome = true) :
    ∃ out, fill_variables s m = .ok out ∧ (mapValsBraceFree m → braceFree out) := by
  have hsup' : ∀ n ∈ lvGo s none,
      (lookupVar (m.filter (fun kv => decide (kv.1 ∈ list_variables s))) n).isSome = true := by
    intro n hn
    rw [lookupVar_filter m (fun k => decide (k ∈ list_variables s)) n,
      if_pos (decide_eq_true (show n ∈ list_variables s from hn))]
    exact hsup n hn
  obtain ⟨out, hout, hbf⟩ :=
    (fmGo_wf_ok (m.filter (fun kv => decide (kv.1 ∈ list_variables s))) s).1 hwf hsup'
  refine ⟨out, hout, fun hv => hbf ?_⟩
  intro kv hkv
  exact hv kv (List.mem_filter.mp hkv).1

theorem fill_variables_err {s : PyStr} {m : VarMap} (hwf : wfTemplate s = true)
    (hmiss : ∃ n ∈ list_variables s, lookupVar m n = none) :
    ∃ n, fill_variables s m = .error (.keyError n) := by
  have hmiss' : ∃ n ∈ lvGo s none,
      lookupVar (m.filter (fun kv => decide (kv.1 ∈ list_variables s))) n = none := by
    obtain ⟨n, hn, hnone⟩ := hmiss
    refine ⟨n, hn, ?_⟩
    rw [lookupVar_filter m (fun k => decide (k ∈ list_variables s)) n,
      if_pos (decide_eq_true (show n ∈ list_variables s from hn))]
    exact hnone
  obtain ⟨n, _, _, herr⟩ :=
    (fmGo_wf_missing (m.filter (fun kv => decide (kv.1 ∈ list_variables s))) s).1 hwf hmiss'
  exact ⟨n, herr⟩

theorem fill_variables_wf_cases (s : PyStr) (m : VarMap) (hwf : wfTemplate s = true) :
    (∃ out, fill_variables s m = .ok out) ∨
      ∃ n, fill_variables s m = .error (.keyError n) := by
  by_cases hsup : ∀ n ∈ list_variables s, (lookupVar m n).isSome = true
  · obtain ⟨out, hout, _⟩ := fill_variables_ok hwf hsup
    exact .inl ⟨out, hout⟩
  · refine .inr (fill_variables_err hwf ?_)
    push_neg at hsup
    obtain ⟨n, hn, hnone⟩ := hsup
    refine ⟨n, hn, ?_⟩
    rcases h : lookupVar m n with _ | v
    · rfl
    · rw [h] at hnone
      exact absurd rfl hnone

/-! ## Lemmas: the expression and section traversals -/

theorem evalExpressions_ok {f : PyStr → PyVal} {R : VarMap} {E : List (PyStr × PyStr)}
    (hwf : ∀ kv ∈ E, wfTemplate kv.2 = true)
    (hsup : ∀ kv ∈ E, ∀ n ∈ list_variables kv.2, (lookupVar R n).isSome = true) :
    ∃ ev, evalExpressions f R E = .ok ev ∧ ev.map Prod.fst = E.map Prod.fst ∧
      ∀ kv ∈ ev, ∃ s, kv.2 = f s := by
  induction E with
  | nil => exact ⟨[], rfl, rfl, fun kv h => absurd h (List.not_mem_nil kv)⟩
  | cons kv0 rest ih =>
      obtain ⟨k, v⟩ := kv0
      obtain ⟨s, hs, _⟩ := fill_variables_ok (m := R)
        (hwf _ (List.mem_cons_self _ _)) (hsup _ (List.mem_cons_self _ _))
      obtain ⟨ev, hev, hkeys, hvals⟩ :=
        ih (fun kv h => hwf kv (List.mem_cons_of_mem _ h))
          (fun kv h => hsup kv (List.mem_cons_of_mem _ h))
      refine ⟨(k, f s) :: ev, ?_, ?_, ?_⟩
      · simp [evalExpressions, hs, hev]
      · simp [List.map_cons, hkeys]
      · intro kv h
        rcases List.mem_cons.mp h with rfl | h
        · exact ⟨s, rfl⟩
        · exact hvals kv h

theorem evalExpressions_err {f : PyStr → PyVal} {R : VarMap} {E : List (PyStr × PyStr)}
    (hwf : ∀ kv ∈ E, wfTemplate kv.2 = true)
    (hmiss : ∃ kv ∈ E, ∃ n ∈ list_variables kv.2, lookupVar R n = none) :
    ∃ n, evalExpressions f R E = .error (.keyError n) := by
  induction E with
  | nil =>
      obtain ⟨kv, h, _⟩ := hmiss
      exact absurd h (List.not_mem_nil kv)
  | cons kv0 rest ih =>
      obtain ⟨k, v⟩ := kv0
      obtain ⟨kv, hkv, n, hn, hnone⟩ := hmiss
      rcases List.mem_cons.mp hkv with rfl | hkv
      · obtain ⟨n', herr⟩ :=
          fill_variables_err (hwf _ (List.mem_cons_self _ _)) ⟨n, hn, hnone⟩
        exact ⟨n', by simp [evalExpressions, herr]⟩
      · rcases fill_variables_wf_cases v R (hwf _ (List.mem_cons_self _ _)) with
          ⟨s, hs⟩ | ⟨n', herr⟩
        · obtain ⟨n', herr⟩ :=
            ih (fun kv h => hwf kv (List.mem_cons_of_mem _ h)) ⟨kv, hkv, n, hn, hnone⟩
          exact ⟨n', by simp [evalExpressions, hs, herr]⟩
        · exact ⟨n', by simp [evalExpressions, herr]⟩

theorem evalExpressions_cases (f : PyStr → PyVal) (R : VarMap)
    (E : List (PyStr × PyStr)) (hwf : ∀ kv ∈ E, wfTemplate kv.2 = true) :
    (∃ ev, evalExpressions f R E = .ok ev) ∨
      ∃ n, evalExpressions f R E = .error (.keyError n) := by
  induction E with
  | nil => exact .inl ⟨[], rfl⟩
  | cons kv0 rest ih =>
      obtain ⟨k, v⟩ := kv0
      rcases fill_variables_wf_cases v R (hwf _ (List.mem_cons_self _ _)) with
        ⟨s, hs⟩ | ⟨n, herr⟩
      · rcases ih (fun kv h => hwf kv (List.mem_cons_of_mem _ h)) with
          ⟨ev, hev⟩ | ⟨n, herr⟩
        · exact .inl ⟨(k, f s) :: ev, by simp [evalExpressions, hs, hev]⟩
        · exact .inr ⟨n, by simp [evalExpressions, hs, herr]⟩
      · exact .inr ⟨n, by simp [evalExpressions, herr]⟩

theorem evalExpressions_keys {f : PyStr → PyVal} {R : VarMap}
    {E : List (PyStr × PyStr)} {ev : VarMap}
    (h : evalExpressions f R E = .ok ev) :
    ev.map Prod.fst = E.map Prod.fst := by
  induction E generalizing ev with
  | nil => cases h; rfl
  | cons kv rest ih =>
      obtain ⟨k, v⟩ := kv
      simp only [evalExpressions] at h
      rcases hfv : fill_variables v R with e | s <;> rw [hfv] at h
      · cases h
      · rcases hrest : evalExpressions f R rest with e | out <;> rw [hrest] at h
        · cases h
        · cases h
          simp [List.map_cons, ih hrest]

theorem fillSections_ok {M : VarMap} {T : List (PyStr × PyStr)}
    (hwf : ∀ kv ∈ T, wfTemplate kv.2 = true)
    (hsup : ∀ kv ∈ T, ∀ n ∈ list_variables kv.2, (lookupVar M n).isSome = true) :
    ∃ out, fillSections M T = .ok out ∧ out.map Prod.fst = T.map Prod.fst ∧
      (mapValsBraceFree M → ∀ kv ∈ out, braceFree kv.2) := by
  induction T with
  | nil => exact ⟨[], rfl, rfl, fun _ kv h => absurd h (List.not_mem_nil kv)⟩
  | cons kv0 rest ih =>
      obtain ⟨k, v⟩ := kv0
      obtain ⟨s, hs, hsbf⟩ := fill_variables_ok (m := M)
        (hwf _ (List.mem_cons_self _ _)) (hsup _ (List.mem_cons_self _ _))
      obtain ⟨out, hout, hkeys, hbf⟩ :=
        ih (fun kv h => hwf kv (List.mem_cons_of_mem _ h))
          (fun kv h => hsup kv (List.mem_cons_of_mem _ h))
      refine ⟨(k, s) :: out, ?_, ?_, ?_⟩
      · simp [fillSections, hs, hout]
      · simp [List.map_cons, hkeys]
      · intro hv kv h
        rcases List.mem_cons.mp h with rfl | h
        · exact hsbf hv
        · exact hbf hv kv h

theorem fillSections_err {M : VarMap} {T : List (PyStr × PyStr)}
    (hwf : ∀ kv ∈ T, wfTemplate kv.2 = true)
    (hmiss : ∃ kv ∈ T, ∃ n ∈ list_variables kv.2, lookupVar M n = none) :
    ∃ n, fillSections M T = .error (.keyError n) := by
  induction T with
  | nil =>
      obtain ⟨kv, h, _⟩ := hmiss
      exact absurd h (List.not_mem_nil kv)
  | cons kv0 rest ih =>
      obtain ⟨k, v⟩ := kv0
      obtain ⟨kv, hkv, n, hn, hnone⟩ := hmiss
      rcases List.mem_cons.mp hkv with rfl | hkv
      · obtain ⟨n', herr⟩ :=
          fill_variables_err (hwf _ (List.mem_cons_self _ _)) ⟨n, hn, hnone⟩
        exact ⟨n', by simp [fillSections, herr]⟩
      · rcases fill_variables_wf_cases v M (hwf _ (List.mem_cons_self _ _)) with
          ⟨s, hs⟩ | ⟨n', herr⟩
        · obtain ⟨n', herr⟩ :=
            ih (fun kv h => hwf kv (List.mem_cons_of_mem _ h)) ⟨kv, hkv, n, hn, hnone⟩
          exact ⟨n', by simp [fillSections, hs, herr]⟩
        · exact ⟨n', by simp [fillSections, herr]⟩

/-! ## Lemmas: the template parser -/

def fiveKeys : List PyStr := [fromKey, toKey, ccKey, subjectKey, bodyKey]

/-- The marker string that introduces (and overwrites) a given section. -/
def markerFor (k : PyStr) : PyStr :=
  if k = fromKey then "<From>".toList
  else if k = toKey then "<To>".toList
  else if k = ccKey then "<Cc>".toList
  else if k = subjectKey then "<Subject>".toList
  else "<Body>".toList

theorem setKey_map_fst {parts : List (PyStr × PyStr)} {k : PyStr} (v : PyStr)
    (h : k ∈ parts.map Prod.fst) :
    (setKey parts k v).map Prod.fst = parts.map Prod.fst := by
  induction parts with
  | nil => cases h
  | cons kv rest ih =>
      obtain ⟨k0, v0⟩ := kv
      by_cases hk : k0 = k
      · subst hk
        simp [setKey]
      · rw [List.map_cons] at h
        rcases List.mem_cons.mp h with rfl | h
      <;> first
        | exact absurd rfl hk
        | simp [setKey, hk, ih h]

theorem lookupStr_setKey_ne {parts : List (PyStr × PyStr)} {k k' : PyStr}
    (v : PyStr) (h : k' ≠ k) :
    lookupStr (setKey parts k' v) k = lookupStr parts k := by
  induction parts with
  | nil => simp [setKey, lookupStr, h]
  | cons kv rest ih =>
      obtain ⟨k0, v0⟩ := kv
      by_cases hk : k0 = k'
      · subst hk
        have hk0 : ¬ (k0 = k) := fun he => h he
        simp [setKey, lookupStr, hk0]
      · by_cases hk0 : k0 = k
        · subst hk0
          simp [setKey, hk, lookupStr]
        · simp [setKey, hk, lookupStr, hk0, ih]

theorem processStripped_keys {st st' : PTState} {line : List Char}
    (hkeys : st.parts.map Prod.fst = fiveKeys)
    (h : processStripped st line = .ok st') :
    st'.parts.map Prod.fst = fiveKeys := by
  have hmem : ∀ k ∈ fiveKeys, k ∈ st.parts.map Prod.fst := by
    intro k hk; rw [hkeys]; exact hk
  unfold processStripped at h
  by_cases h1 : ("#".toList).isPrefixOf line = true
  · rw [if_pos h1] at h; cases h; exact hkeys
  · rw [if_neg h1] at h
    by_cases h2 : ("<Expressions>".toList).isPrefixOf line = true
    · rw [if_pos h2] at h
      rcases hsp : splitSemi (line.drop 13) with _ | ⟨p0, _ | ⟨p1, ps⟩⟩ <;>
        rw [hsp] at h
      · cases h
      · cases h
      · cases h; exact hkeys
    · rw [if_neg h2] at h
      by_cases h3 : ("<From>".toList).isPrefixOf line = true
      · rw [if_pos h3] at h; cases h
        exact (setKey_map_fst _ (hmem fromKey (by decide))).trans hkeys
      · rw [if_neg h3] at h
        by_cases h4 : ("<To>".toList).isPrefixOf line = true
        · rw [if_pos h4] at h; cases h
          exact (setKey_map_fst _ (hmem toKey (by decide))).trans hkeys
        · rw [if_neg h4] at h
          by_cases h5 : ("<Cc>".toList).isPrefixOf line = true
          · rw [if_pos h5] at h; cases h
            exact (setKey_map_fst _ (hmem ccKey (by decide))).trans hkeys
          · rw [if_neg h5] at h
            by_cases h6 : ("<Subject>".toList).isPrefixOf line = true
            · rw [if_pos h6] at h; cases h
              exact (setKey_map_fst _ (hmem subjectKey (by decide))).trans hkeys
            · rw [if_neg h6] at h
              by_cases h7 : ("<Body>".toList).isPrefixOf line = true
              · rw [if_pos h7] at h; cases h; exact hkeys
              · rw [if_neg h7] at h
                by_cases h8 : st.current = some bodyKey
                · rw [if_pos h8] at h; cases h
                  exact (setKey_map_fst _ (hmem bodyKey (by decide))).trans hkeys
                · rw [if_neg h8] at h; cases h; exact hkeys

theorem processStripped_ok (st : PTState) (line : List Char)
    (hsemi : ("<Expressions>".toList).isPrefixOf line = true →
      2 ≤ (splitSemi (line.drop 13)).length) :
    ∃ st', processStripped st line = .ok st' := by
  unfold processStripped
  by_cases h1 : ("#".toList).isPrefixOf line = true
  · rw [if_pos h1]; exact ⟨st, rfl⟩
  · rw [if_neg h1]
    by_cases h2 : ("<Expressions>".toList).isPrefixOf line = true
    · rw [if_pos h2]
      rcases hsp : splitSemi (line.drop 13) with _ | ⟨p0, _ | ⟨p1, ps⟩⟩
      · have := hsemi h2; rw [hsp] at this; exact absurd this (by decide)
      · have := hsemi h2; rw [hsp] at this
        exact absurd this (by simp)
      · exact ⟨_, rfl⟩
    · rw [if_neg h2]
      by_cases h3 : ("<From>".toList).isPrefixOf line = true
      · rw [if_pos h3]; exact ⟨_, rfl⟩
      · rw [if_neg h3]
        by_cases h4 : ("<To>".toList).isPrefixOf line = true
        · rw [if_pos h4]; exact ⟨_, rfl⟩
        · rw [if_neg h4]
          by_cases h5 : ("<Cc>".toList).isPrefixOf line = true
          · rw [if_pos h5]; exact ⟨_, rfl⟩
          · rw [if_neg h5]
            by_cases h6 : ("<Subject>".toList).isPrefixOf line = true
            · rw [if_pos h6]; exact ⟨_, rfl⟩
            · rw [if_neg h6]
              by_cases h7 : ("<Body>".toList).isPrefixOf line = true
              · rw [if_pos h7]; exact ⟨_, rfl⟩
              · rw [if_neg h7]
                by_cases h8 : st.current = some bodyKey
                · rw [if_pos h8]; exact ⟨_, rfl⟩
                · rw [if_neg h8]; exact ⟨_, rfl⟩

theorem processStripped_untouched {st st' : PTState} {line : List Char} {k : PyStr}
    (hline : ¬ ((markerFor k).isPrefixOf line = true))
    (hval : lookupStr st.parts k = some [])
    (hcur : st.current ≠ some k)
    (h : processStripped st line = .ok st') :
    lookupStr st'.parts k = some [] ∧ st'.current ≠ some k := by
  unfold processStripped at h
  by_cases h1 : ("#".toList).isPrefixOf line = true
  · rw [if_pos h1] at h; cases h; exact ⟨hval, hcur⟩
  · rw [if_neg h1] at h
    by_cases h2 : ("<Expressions>".toList).isPrefixOf line = true
    · rw [if_pos h2] at h
      rcases hsp : splitSemi (line.drop 13) with _ | ⟨p0, _ | ⟨p1, ps⟩⟩ <;>
        rw [hsp] at h
      · cases h
      · cases h
      · cases h; exact ⟨hval, hcur⟩
    · rw [if_neg h2] at h
      by_cases h3 : ("<From>".toList).isPrefixOf line = true
      · by_cases hkf : k = fromKey
        · subst hkf
          rw [show markerFor fromKey = ("<From>".toList) from by decide] at hline
          exact absurd h3 hline
        · rw [if_pos h3] at h; cases h
          refine ⟨(lookupStr_setKey_ne _ (fun he => hkf he.symm)).trans hval, ?_⟩
          intro he
          exact hkf (Option.some_injective _ he.symm)
      · rw [if_neg h3] at h
        by_cases h4 : ("<To>".toList).isPrefixOf line = true
        · by_cases hkf : k = toKey
          · subst hkf
            rw [show markerFor toKey = ("<To>".toList) from by decide] at hline
            exact absurd h4 hline
          · rw [if_pos h4] at h; cases h
            refine ⟨(lookupStr_setKey_ne _ (fun he => hkf he.symm)).trans hval, ?_⟩
            intro he
            exact hkf (Option.some_injective _ he.symm)
        · rw [if_neg h4] at h
          by_cases h5 : ("<Cc>".toList).isPrefixOf line = true
          · by_cases hkf : k = ccKey
            · subst hkf
              rw [show markerFor ccKey = ("<Cc>".toList) from by decide] at hline
              exact absurd h5 hline
            · rw [if_pos h5] at h; cases h
              refine ⟨(lookupStr_setKey_ne _ (fun he => hkf he.symm)).trans hval, ?_⟩
              intro he
              exact hkf (Option.some_injective _ he.symm)
          · rw [if_neg h5] at h
            by_cases h6 : ("<Subject>".toList).isPrefixOf line = true
            · by_cases hkf : k = subjectKey
              · subst hkf
                rw [show markerFor subjectKey = ("<Subject>".toList) from by decide] at hline
                exact absurd h6 hline
              · rw [if_pos h6] at h; cases h
                refine ⟨(lookupStr_setKey_ne _ (fun he => hkf he.symm)).trans hval, ?_⟩
                intro he
                exact hkf (Option.some_injective _ he.symm)
            · rw [if_neg h6] at h
              by_cases h7 : ("<Body>".toList).isPrefixOf line = true
              · by_cases hkf : k = bodyKey
                · subst hkf
                  rw [show markerFor bodyKey = ("<Body>".toList) from by decide] at hline
                  exact absurd h7 hline
                · rw [if_pos h7] at h; cases h
                  refine ⟨hval, ?_⟩
                  intro he
                  exact hkf (Option.some_injective _ he.symm)
              · rw [if_neg h7] at h
                by_cases h8 : st.current = some bodyKey
                · by_cases hkf : k = bodyKey
                  · subst hkf
                    exact absurd h8 hcur
                  · rw [if_pos h8] at h; cases h
                    exact ⟨(lookupStr_setKey_ne _ (fun he => hkf he.symm)).trans hval, hcur⟩
                · rw [if_neg h8] at h; cases h; exact ⟨hval, hcur⟩

theorem parseLines_keys :
    ∀ (lines : List (List Char)) (st st' : PTState),
      st.parts.map Prod.fst = fiveKeys → parseLines st lines = .ok st' →
      st'.parts.map Prod.fst = fiveKeys := by
  intro lines
  induction lines with
  | nil =>
      intro st st' hkeys h
      cases h; exact hkeys
  | cons l rest ih =>
      intro st st' hkeys h
      rw [parseLines] at h
      rcases hp : processLine st l with e | st2 <;> rw [hp] at h
      · cases h
      · exact ih st2 st' (processStripped_keys hkeys hp) h

theorem parseLines_ok :
    ∀ (lines : List (List Char)) (st : PTState),
      (∀ l ∈ lines, ("<Expressions>".toList).isPrefixOf (pyStrip l) = true →
        2 ≤ (splitSemi ((pyStrip l).drop 13)).length) →
      ∃ st', parseLines st lines = .ok st' := by
  intro lines
  induction lines with
  | nil => intro st _; exact ⟨st, rfl⟩
  | cons l rest ih =>
      intro st hsemi
      obtain ⟨st2, hst2⟩ :=
        processStripped_ok st (pyStrip l) (hsemi l (List.mem_cons_self _ _))
      obtain ⟨st', hst'⟩ := ih st2 (fun l hl => hsemi l (List.mem_cons_of_mem _ hl))
      refine ⟨st', ?_⟩
      rw [parseLines]
      rw [show processLine st l = .ok st2 from hst2]
      exact hst'

theorem parseLines_untouched :
    ∀ (lines : List (List Char)) (st st' : PTState) (k : PyStr),
      (∀ l ∈ lines, ¬ ((markerFor k).isPrefixOf (pyStrip l) = true)) →
      lookupStr st.parts k = some [] → st.current ≠ some k →
      parseLines st lines = .ok st' →
      lookupStr st'.parts k = some [] := by
  intro lines
  induction lines with
  | nil =>
      intro st st' k _ hval _ h
      cases h; exact hval
  | cons l rest ih =>
      intro st st' k hline hval hcur h
      rw [parseLines] at h
      rcases hp : processLine st l with e | st2 <;> rw [hp] at h
      · cases h
      · obtain ⟨hval2, hcur2⟩ :=
          processStripped_untouched (hline l (List.mem_cons_self _ _)) hval hcur hp
        exact ih st2 st' k (fun l hl => hline l (List.mem_cons_of_mem _ hl))
          hval2 hcur2 h

/-! ## Lemma: doubling then halving line breaks -/

theorem halveNL_doubleNL : ∀ b : List Char, halveNL (doubleNL b) = b := by
  have key : ∀ b : List Char, halveGo (doubleNL b) false = b := by
    intro b
    induction b with
    | nil => rfl
    | cons c rest ih =>
        by_cases hc : c = '\n'
        · subst hc
          simp only [doubleNL, if_pos rfl, halveGo]
          simpa using ih
        · simp only [doubleNL, hc, if_false, ite_false, if_neg, halveGo]
          simpa [hc] using ih
  exact fun b => key b

/-! ## Claim theorems -/

/-- C1 (corrected), counterexample to the claim as stated: with template
section `"{name}"` and recipient value `"{a}"` (placeholders supplied, no
expressions), `fill_placeholders` succeeds — yet the returned Body is
`"{a}"`, which still contains a `\x7bidentifier\x7d` substring, because
`str.format_map` substitutes in a single pass and never rescans
substituted values. -/
theorem C1_counterexample :
    fill_placeholders pyEvalArith [("Body".toList, "{name}".toList)]
        [("name".toList, PyVal.str ("{a}".toList))] [] =
      .ok [("Body".toList, "{a}".toList)] ∧
    (lookupVar [("name".toList, PyVal.str ("{a}".toList))] ("name".toList)).isSome
      = true ∧
    list_variables ("{a}".toList) ≠ [] := by
  exact ⟨by decide, by decide, by decide⟩

/-- C1 (amended): for every evaluator, template sections, recipient
mapping and expression table such that all section and expression texts
are well formed (braces only as bare-word `\x7bidentifier\x7d`
placeholders), every placeholder inside the expressions is supplied by
the recipient mapping, every placeholder referenced by a section is
supplied by the merged mapping (a recipient column or an expression
name), and — the amendment — no recipient value or evaluator output
formats to a string containing a brace, `fill_placeholders` terminates
with a section mapping over the same keys in which no section contains
any `\x7bidentifier\x7d` substring. -/
theorem C1_fill_placeholders_complete (f : PyStr → PyVal)
    (T : List (PyStr × PyStr)) (R : VarMap) (E : List (PyStr × PyStr))
    (hTwf : ∀ kv ∈ T, wfTemplate kv.2 = true)
    (hEwf : ∀ kv ∈ E, wfTemplate kv.2 = true)
    (hEsup : ∀ kv ∈ E, ∀ n ∈ list_variables kv.2, (lookupVar R n).isSome = true)
    (hTsup : ∀ kv ∈ T, ∀ n ∈ list_variables kv.2,
      n ∈ R.map Prod.fst ∨ n ∈ E.map Prod.fst)
    (hRbf : mapValsBraceFree R)
    (hfbf : ∀ s, braceFree (formatPyVal (f s))) :
    ∃ out, fill_placeholders f T R E = .ok out ∧
      out.map Prod.fst = T.map Prod.fst ∧
      ∀ kv ∈ out, list_variables kv.2 = [] := by
  obtain ⟨ev, hev, hkeys, hvals⟩ := evalExpressions_ok (f := f) hEwf hEsup
  have hevbf : mapValsBraceFree ev := by
    intro kv hkv
    obtain ⟨s, hs⟩ := hvals kv hkv
    rw [hs]
    exact hfbf s
  have hmbf : mapValsBraceFree (dictUpdate R ev) := dictUpdate_braceFree hRbf hevbf
  have hMsup : ∀ kv ∈ T, ∀ n ∈ list_variables kv.2,
      (lookupVar (dictUpdate R ev) n).isSome = true := by
    intro kv hkv n hn
    rw [dictUpdate_lookup]
    rcases hl : lookupVar ev n with _ | v
    · rcases hTsup kv hkv n hn with hR | hE
      · exact lookupVar_isSome_iff.mpr hR
      · exfalso
        have : n ∉ ev.map Prod.fst := lookupVar_eq_none_iff.mp hl
        rw [hkeys] at this
        exact this hE
    · rfl
  obtain ⟨out, hout, houtkeys, hbf⟩ := fillSections_ok hTwf hMsup
  refine ⟨out, ?_, houtkeys, ?_⟩
  · simp only [fill_placeholders, hev]
    exact hout
  · intro kv hkv
    exact list_variables_eq_nil_of_braceFree _ (hbf hmbf kv hkv)

/-- Witness for C1 at the README scenario with a constant evaluator. -/
theorem C1_fill_placeholders_complete_witness :
    ∃ out, fill_placeholders (fun _ => PyVal.int 6)
        [("Body".toList, "Hi {name}, total={x}".toList)]
        [("name".toList, .str ("Ana".toList)), ("n".toList, .str ("3".toList))]
        [("x".toList, "{n} * 2".toList)] = .ok out ∧
      out.map Prod.fst = [("Body".toList, "Hi {name}, total={x}".toList)].map Prod.fst ∧
      ∀ kv ∈ out, list_variables kv.2 = [] :=
  C1_fill_placeholders_complete (fun _ => PyVal.int 6)
    [("Body".toList, "Hi {name}, total={x}".toList)]
    [("name".toList, .str ("Ana".toList)), ("n".toList, .str ("3".toList))]
    [("x".toList, "{n} * 2".toList)]
    (by decide) (by decide) (by decide) (by decide) (by decide)
    (fun _ => (by decide : braceFree (formatPyVal (PyVal.int 6))))

/-- C2 (corrected), counterexample to the claim as stated: the Body
section references the absent name `missing`, so the claim predicts the
undefined-reference (`KeyError`) failure — but the From section is the
stray brace `"\x7d"` and is processed first, so the code raises
`ValueError` instead. -/
theorem C2_counterexample :
    fill_placeholders pyEvalArith
        [("From".toList, "\x7d".toList), ("Body".toList, "{missing}".toList)]
        [] [] = .error .valueError ∧
    "missing".toList ∈ list_variables ("{missing}".toList) ∧
    lookupVar [] ("missing".toList) = none := by
  exact ⟨by decide, by decide, rfl⟩

/-- C2 (amended): provided every section and expression text is well
formed (braces only as bare-word placeholders), whenever some expression
references a name absent from the recipient mapping, or some section
references a name absent from the merged mapping (neither a recipient
column nor an expression name), `fill_placeholders` raises the
undefined-reference error (`KeyError`); the `Except` result carries no
partial section mapping, as the Python exception discards the
comprehension. -/
theorem C2_undefined_reference (f : PyStr → PyVal)
    (T : List (PyStr × PyStr)) (R : VarMap) (E : List (PyStr × PyStr))
    (hTwf : ∀ kv ∈ T, wfTemplate kv.2 = true)
    (hEwf : ∀ kv ∈ E, wfTemplate kv.2 = true)
    (hmiss :
      (∃ kv ∈ E, ∃ n ∈ list_variables kv.2, n ∉ R.map Prod.fst) ∨
      (∃ kv ∈ T, ∃ n ∈ list_variables kv.2,
        n ∉ R.map Prod.fst ∧ n ∉ E.map Prod.fst)) :
    ∃ n, fill_placeholders f T R E = .error (.keyError n) := by
  rcases hmiss with ⟨kv, hkv, n, hn, hnR⟩ | ⟨kv, hkv, n, hn, hnR, hnE⟩
  · obtain ⟨n', herr⟩ := evalExpressions_err (f := f) hEwf
      ⟨kv, hkv, n, hn, lookupVar_eq_none_iff.mpr hnR⟩
    exact ⟨n', by simp [fill_placeholders, herr]⟩
  · rcases evalExpressions_cases f R E hEwf with ⟨ev, hev⟩ | ⟨n', herr⟩
    · have hkeys := evalExpressions_keys hev
      have hnone : lookupVar (dictUpdate R ev) n = none := by
        rw [dictUpdate_lookup]
        have h1 : lookupVar ev n = none := by
          rw [lookupVar_eq_none_iff, hkeys]
          exact hnE
        rw [h1]
        exact lookupVar_eq_none_iff.mpr hnR
      obtain ⟨n', herr⟩ := fillSections_err hTwf ⟨kv, hkv, n, hn, hnone⟩
      exact ⟨n', by simp [fill_placeholders, hev, herr]⟩
    · exact ⟨n', by simp [fill_placeholders, herr]⟩

/-- Witness for C2: a Body referencing the absent `m`. -/
theorem C2_undefined_reference_witness :
    ∃ n, fill_placeholders pyEvalArith [("Body".toList, "{m}".toList)] [] [] =
      .error (.keyError n) :=
  C2_undefined_reference pyEvalArith [("Body".toList, "{m}".toList)] [] []
    (by decide) (by decide)
    (.inr ⟨("Body".toList, "{m}".toList), by decide, "m".toList, by decide,
      by decide, by decide⟩)

/-- C3 (confirmed): the spec example scenario — template body
`"Hi {name}, total={x}"`, expression table `x ↦ "{n} * 2"`, recipient
`name ↦ "Ana", n ↦ "3"` — fills to Body `"Hi Ana, total=6"` (Python
`eval` on `"3 * 2"` modelled by the arithmetic evaluator). -/
theorem C3_example_scenario :
    fill_placeholders pyEvalArith
      [("Body".toList, "Hi {name}, total={x}".toList)]
      [("name".toList, .str ("Ana".toList)), ("n".toList, .str ("3".toList))]
      [("x".toList, "{n} * 2".toList)] =
      .ok [("Body".toList, "Hi Ana, total=6".toList)] := by
  decide

/-- C4 (corrected), counterexample to the claim as stated: expression `b`
references expression name `a`, absent from the recipient mapping — the
claim predicts the undefined-reference error, but the expression `z`,
whose text is the stray brace `"\x7d"`, is evaluated first and raises
`ValueError` instead. -/
theorem C4_counterexample :
    fill_placeholders pyEvalArith [] []
        [("z".toList, "\x7d".toList), ("a".toList, "1".toList),
          ("b".toList, "{a}".toList)] = .error .valueError ∧
    ("a".toList, "1".toList) ∈
      [("z".toList, "\x7d".toList), ("a".toList, "1".toList),
        ("b".toList, "{a}".toList)] ∧
    ("b".toList, "{a}".toList) ∈
      [("z".toList, "\x7d".toList), ("a".toList, "1".toList),
        ("b".toList, "{a}".toList)] ∧
    "a".toList ∈ list_variables ("{a}".toList) ∧
    lookupVar [] ("a".toList) = none := by
  exact ⟨by decide, by decide, by decide, by decide, rfl⟩

/-- C4 (amended): provided the expression texts are well formed (braces
only as bare-word placeholders), whenever one expression's raw text
references the name of another expression and that name is absent from
the recipient mapping, `fill_placeholders` raises the
undefined-reference error: every expression is evaluated against the
pristine recipient mapping (`variables.update` runs only after the whole
expression comprehension), so no expression's output is ever input to
another, whatever the declaration order. -/
theorem C4_cross_expression_dependency (f : PyStr → PyVal)
    (T : List (PyStr × PyStr)) (R : VarMap) (E : List (PyStr × PyStr))
    (hEwf : ∀ kv ∈ E, wfTemplate kv.2 = true)
    (k1 v1 k2 v2 : PyStr) (h1 : (k1, v1) ∈ E) (h2 : (k2, v2) ∈ E)
    (href : k1 ∈ list_variables v2) (habs : k1 ∉ R.map Prod.fst) :
    ∃ n, fill_placeholders f T R E = .error (.keyError n) := by
  obtain ⟨n', herr⟩ := evalExpressions_err (f := f) hEwf
    ⟨(k2, v2), h2, k1, href, lookupVar_eq_none_iff.mpr habs⟩
  exact ⟨n', by simp [fill_placeholders, herr]⟩

/-- Witness for C4: `b` references the other expression name `a`. -/
theorem C4_cross_expression_dependency_witness :
    ∃ n, fill_placeholders pyEvalArith [] []
        [("a".toList, "1".toList), ("b".toList, "{a}".toList)] =
      .error (.keyError n) :=
  C4_cross_expression_dependency pyEvalArith [] []
    [("a".toList, "1".toList), ("b".toList, "{a}".toList)] (by decide)
    ("a".toList) ("1".toList) ("b".toList) ("{a}".toList)
    (by decide) (by decide) (by decide) (by decide)

/-- C5 (confirmed): one step of the dispatch loop.  If the first send
raises the sender-refused class and the retry succeeds, the loop
reconnects, re-authenticates, re-attempts the very same message, counts
it as sent (the continuation runs with `sent + 1`) and proceeds; if the
first send raises any other exception the loop halts at once with the
error surfaced (`crashed`; in the source the `except e:` handler names an
unbound variable, so a `NameError` propagates while the original
exception is handled — the intended print-and-return is dead code, and
either way nothing after the failure point is sent). -/
theorem C5_dispatch_failure_policy (m : MsgBehavior) (rest : List MsgBehavior)
    (idx sent : Nat) :
    (m.first = .senderRefused → m.retry = .success →
      dispatchLoop (m :: rest) idx sent =
        { events := .attempt idx :: .reconnect :: .relogin :: .attempt idx ::
            .report (sent + 1) :: .pause ::
            (dispatchLoop rest (idx + 1) (sent + 1)).events,
          sentCount := (dispatchLoop rest (idx + 1) (sent + 1)).sentCount,
          crashed := (dispatchLoop rest (idx + 1) (sent + 1)).crashed }) ∧
    (m.first = .otherError →
      dispatchLoop (m :: rest) idx sent =
        { events := [.attempt idx], sentCount := sent, crashed := true }) := by
  constructor
  · intro h1 h2
    simp [dispatchLoop, h1, h2]
  · intro h1
    simp [dispatchLoop, h1]

/-- Witness for C5: a refused-then-retried message, and an
other-error message that halts the loop before the following message. -/
theorem C5_dispatch_failure_policy_witness :
    dispatchLoop [⟨.senderRefused, .success⟩] 0 0 =
      { events := [.attempt 0, .reconnect, .relogin, .attempt 0, .report 1, .pause],
        sentCount := 1, crashed := false } ∧
    dispatchLoop [⟨.otherError, .success⟩, ⟨.success, .success⟩] 5 3 =
      { events := [.attempt 5], sentCount := 3, crashed := true } := by
  constructor
  · have h := (C5_dispatch_failure_policy ⟨.senderRefused, .success⟩ [] 0 0).1 rfl rfl
    simpa using h
  · exact (C5_dispatch_failure_policy ⟨.otherError, .success⟩
      [⟨.success, .success⟩] 5 3).2 rfl

/-- C6 (confirmed): for every filled template whose Body is `b` and every
signature `s`, the built message's plain-text body is `b` with each line
break doubled, halving those line breaks recovers `b` exactly, and the
HTML body contains `b` with each line break replaced by two `<br>` tags
as well as the signature markup verbatim (unescaped, by construction of
the f-string). -/
theorem C6_built_message_round_trip (pdf : List UInt8)
    (pdf_name signature : PyStr) (T : List (PyStr × PyStr)) (b : PyStr)
    (hbody : lookupStr T bodyKey = some b) :
    (build_mail pdf pdf_name signature T).plainBody = doubleNL b ∧
    halveNL (build_mail pdf pdf_name signature T).plainBody = b ∧
    List.IsInfix (brNL b) (build_mail pdf pdf_name signature T).htmlBody ∧
    List.IsInfix signature (build_mail pdf pdf_name signature T).htmlBody := by
  have hb : (lookupStr T bodyKey).getD [] = b := by rw [hbody]; rfl
  refine ⟨?_, ?_, ?_, ?_⟩
  · show doubleNL ((lookupStr T bodyKey).getD []) = doubleNL b
    rw [hb]
  · show halveNL (doubleNL ((lookupStr T bodyKey).getD [])) = b
    rw [hb, halveNL_doubleNL]
  · show List.IsInfix (brNL b) (html_body ((lookupStr T bodyKey).getD []) signature)
    rw [hb]
    exact ⟨htmlPre, htmlMid ++ signature ++ htmlPost, by simp [html_body]⟩
  · show List.IsInfix signature (html_body ((lookupStr T bodyKey).getD []) signature)
    rw [hb]
    exact ⟨htmlPre ++ brNL b ++ htmlMid, htmlPost, by simp [html_body]⟩

/-- Witness for C6 on a two-line body. -/
theorem C6_built_message_round_trip_witness :
    (build_mail [] ("a.pdf".toList) ("<b>Sig</b>".toList)
        [("Body".toList, "x\ny".toList)]).plainBody = doubleNL ("x\ny".toList) ∧
    halveNL (build_mail [] ("a.pdf".toList) ("<b>Sig</b>".toList)
        [("Body".toList, "x\ny".toList)]).plainBody = "x\ny".toList ∧
    List.IsInfix (brNL ("x\ny".toList))
      (build_mail [] ("a.pdf".toList) ("<b>Sig</b>".toList)
        [("Body".toList, "x\ny".toList)]).htmlBody ∧
    List.IsInfix ("<b>Sig</b>".toList)
      (build_mail [] ("a.pdf".toList) ("<b>Sig</b>".toList)
        [("Body".toList, "x\ny".toList)]).htmlBody :=
  C6_built_message_round_trip [] ("a.pdf".toList) ("<b>Sig</b>".toList)
    [("Body".toList, "x\ny".toList)] ("x\ny".toList) (by decide)

/-- C7 (confirmed): while Body is the active section, any line that is
not a comment and not a marker line is appended — stripped — to the Body
section followed by a line break (so a blank line contributes exactly the
line break), and every other section, the active-section state and the
expression table are unchanged. -/
theorem C7_body_line_appended (st : PTState) (raw : List Char)
    (hcur : st.current = some bodyKey)
    (h1 : ¬ (("#".toList).isPrefixOf (pyStrip raw) = true))
    (h2 : ¬ (("<Expressions>".toList).isPrefixOf (pyStrip raw) = true))
    (h3 : ¬ (("<From>".toList).isPrefixOf (pyStrip raw) = true))
    (h4 : ¬ (("<To>".toList).isPrefixOf (pyStrip raw) = true))
    (h5 : ¬ (("<Cc>".toList).isPrefixOf (pyStrip raw) = true))
    (h6 : ¬ (("<Subject>".toList).isPrefixOf (pyStrip raw) = true))
    (h7 : ¬ (("<Body>".toList).isPrefixOf (pyStrip raw) = true)) :
    processLine st raw =
      .ok { st with parts := setKey st.parts bodyKey ((lookupStr st.parts bodyKey).getD [] ++ pyStrip raw ++ ['\n']) } ∧
    ∀ k, k ≠ bodyKey →
      lookupStr (setKey st.parts bodyKey
          ((lookupStr st.parts bodyKey).getD [] ++ pyStrip raw ++ ['\n'])) k =
        lookupStr st.parts k := by
  constructor
  · show processStripped st (pyStrip raw) = _
    unfold processStripped
    rw [if_neg h1, if_neg h2, if_neg h3, if_neg h4, if_neg h5, if_neg h6, if_neg h7,
      if_pos hcur]
  · intro k hk
    exact lookupStr_setKey_ne _ (fun he => hk he.symm)

/-- Witness for C7: an indented content line (with a blank-preserving
strip) lands in Body with its trailing line break. -/
theorem C7_body_line_appended_witness :
    processLine ⟨initParts, some bodyKey, []⟩ ("  hello {x}  ".toList) =
      .ok ⟨[(fromKey, []), (toKey, []), (ccKey, []), (subjectKey, []),
            (bodyKey, "hello {x}\n".toList)], some bodyKey, []⟩ :=
  (C7_body_line_appended ⟨initParts, some bodyKey, []⟩ ("  hello {x}  ".toList)
    rfl (by decide) (by decide) (by decide) (by decide) (by decide) (by decide)
    (by decide)).1

/-- C8 (corrected), counterexample to the claim as stated: with a
non-empty expression table, `fill_placeholders` succeeds and the
recipient mapping is not unchanged — `variables.update(expr)` mutates the
caller's dict in place, so after the call it carries the evaluated
expression entry `x ↦ 1` that it did not carry before. -/
theorem C8_counterexample :
    fill_placeholders pyEvalArith [("Body".toList, "{x}".toList)]
        [("n".toList, PyVal.str ("3".toList))] [("x".toList, "1".toList)] =
      .ok [("Body".toList, "1".toList)] ∧
    variablesAfterUpdate pyEvalArith [("n".toList, PyVal.str ("3".toList))]
        [("x".toList, "1".toList)] =
      .ok [("n".toList, PyVal.str ("3".toList)), ("x".toList, PyVal.int 1)] ∧
    lookupVar [("n".toList, PyVal.str ("3".toList)), ("x".toList, PyVal.int 1)]
        ("x".toList) ≠
      lookupVar [("n".toList, PyVal.str ("3".toList))] ("x".toList) := by
  exact ⟨by decide, by decide, by decide⟩

/-- C8 (amended): the recipient mapping is mutated by merging the
evaluated expression results into it, and nothing else — after the
update, every key not named by the expression table still maps to
exactly its old value. -/
theorem C8_recipient_vars_frame (f : PyStr → PyVal) (R : VarMap)
    (E : List (PyStr × PyStr)) (post : VarMap) (k : PyStr)
    (h : variablesAfterUpdate f R E = .ok post)
    (hk : ∀ kv ∈ E, kv.1 ≠ k) :
    lookupVar post k = lookupVar R k := by
  unfold variablesAfterUpdate at h
  rcases hev : evalExpressions f R E with e | ev <;> rw [hev] at h
  · cases h
  · simp only [Except.map] at h
    cases h
    rw [dictUpdate_lookup]
    have hnone : lookupVar ev k = none := by
      rw [lookupVar_eq_none_iff, evalExpressions_keys hev]
      intro hmem
      rcases List.mem_map.mp hmem with ⟨kv, hkv, hfst⟩
      exact hk kv hkv hfst
    rw [hnone]

/-- Witness for C8: the untouched key `n` keeps its value across the
update. -/
theorem C8_recipient_vars_frame_witness :
    lookupVar [("n".toList, PyVal.str ("3".toList)), ("x".toList, PyVal.int 1)]
        ("n".toList) =
      lookupVar [("n".toList, PyVal.str ("3".toList))] ("n".toList) :=
  C8_recipient_vars_frame pyEvalArith [("n".toList, PyVal.str ("3".toList))]
    [("x".toList, "1".toList)]
    [("n".toList, PyVal.str ("3".toList)), ("x".toList, PyVal.int 1)]
    ("n".toList) (by decide) (by decide)

/-- C9 (corrected), counterexample to the claim as stated: for
`spread = mean` (here both 90) the claim asserts a negative duration can
be sampled, but `random.uniform(0, 180)` at any unit sample in `[0, 1]`
is `180·u ≥ 0` — no sample is negative; negativity requires
`spread > mean`. -/
theorem C9_counterexample :
    ¬ ∃ u : ℚ, 0 ≤ u ∧ u ≤ 1 ∧ sleep_time 90 90 u < 0 := by
  rintro ⟨u, h0, h1, hneg⟩
  unfold sleep_time randomUniform at hneg
  nlinarith

/-- C9 (amended): every sampled pacing interval lies in the closed
interval `[mean - spread, mean + spread]` (for a non-negative configured
spread), in particular in `[30, 150]` for mean 90 and spread 60; no lower
clamp at zero is applied, and for `spread > mean` (strictly) a negative
duration can be sampled. -/
theorem C9_pacing_interval_bounds :
    (∀ mean variance u : ℚ, 0 ≤ variance → 0 ≤ u → u ≤ 1 →
      mean - variance ≤ sleep_time mean variance u ∧
        sleep_time mean variance u ≤ mean + variance) ∧
    (∀ u : ℚ, 0 ≤ u → u ≤ 1 →
      30 ≤ sleep_time 90 60 u ∧ sleep_time 90 60 u ≤ 150) ∧
    (∀ mean variance : ℚ, mean < variance →
      ∃ u : ℚ, 0 ≤ u ∧ u ≤ 1 ∧ sleep_time mean variance u < 0) := by
  refine ⟨?_, ?_, ?_⟩
  · intro mean variance u hv h0 h1
    unfold sleep_time randomUniform
    constructor <;> nlinarith
  · intro u h0 h1
    unfold sleep_time randomUniform
    constructor <;> nlinarith
  · intro mean variance h
    refine ⟨0, le_refl 0, by norm_num, ?_⟩
    unfold sleep_time randomUniform
    nlinarith

/-- Witness for C9 at the documented configuration and the midpoint
sample. -/
theorem C9_pacing_interval_bounds_witness :
    30 ≤ sleep_time 90 60 (1 / 2) ∧ sleep_time 90 60 (1 / 2) ≤ 150 :=
  C9_pacing_interval_bounds.2.1 (1 / 2) (by norm_num) (by norm_num)

/-- C10 (corrected), counterexample to the claim as stated: on the
template source consisting of the single line `"<Expressions> x"` (no
semicolon), `parse_template` does not return a section mapping at all —
`expr[1]` raises `IndexError`. -/
theorem C10_counterexample :
    parse_template ["<Expressions> x".toList] = .error .indexError := by
  decide

/-- C10 (amended): for every template source whose `<Expressions>` lines
each contain a semicolon (including the empty source and sources with no
or unknown markers), `parse_template` returns a sections dict whose key
list is exactly From, To, Cc, Subject, Body — each key bound to the empty
string whenever its marker never opens a line. -/
theorem C10_parse_template_sections (lines : List (List Char))
    (hsemi : ∀ l ∈ lines, ("<Expressions>".toList).isPrefixOf (pyStrip l) = true →
      2 ≤ (splitSemi ((pyStrip l).drop 13)).length) :
    ∃ parts exprs, parse_template lines = .ok (parts, exprs) ∧
      parts.map Prod.fst = fiveKeys ∧
      ∀ k ∈ fiveKeys,
        (∀ l ∈ lines, ¬ ((markerFor k).isPrefixOf (pyStrip l) = true)) →
        lookupStr parts k = some [] := by
  obtain ⟨st', hst'⟩ := parseLines_ok lines ⟨initParts, none, []⟩ hsemi
  refine ⟨st'.parts, st'.exprs, ?_, ?_, ?_⟩
  · unfold parse_template
    rw [hst']
    rfl
  · exact parseLines_keys lines _ _ (by decide) hst'
  · intro k hk5 hmark
    refine parseLines_untouched lines ⟨initParts, none, []⟩ st' k hmark ?_ ?_ hst'
    · have hcases : k = fromKey ∨ k = toKey ∨ k = ccKey ∨ k = subjectKey ∨
          k = bodyKey := by
        simpa [fiveKeys] using hk5
      rcases hcases with rfl | rfl | rfl | rfl | rfl <;> decide
    · exact fun he => Option.noConfusion he

/-- Witness for C10: a comment, a From line and an expression line; every
marker other than From never occurs, so To, Cc, Subject and Body are
empty. -/
theorem C10_parse_template_sections_witness :
    ∃ parts exprs,
      parse_template ["# note".toList, "<From> a@b.c".toList,
        "<Expressions> x; 1".toList] = .ok (parts, exprs) ∧
      parts.map Prod.fst = fiveKeys ∧
      ∀ k ∈ fiveKeys,
        (∀ l ∈ ["# note".toList, "<From> a@b.c".toList,
          "<Expressions> x; 1".toList], ¬ ((markerFor k).isPrefixOf (pyStrip l) = true)) →
        lookupStr parts k = some [] :=
  C10_parse_template_sections
    ["# note".toList, "<From> a@b.c".toList, "<Expressions> x; 1".toList]
    (by decide)

end Mailer
